import Mathlib

/-!
Verification of the depseeker dependency-graph builder.

The development shallowly embeds the module-specifier resolution engine and
the cycle-safe graph traversal of `src/dependency.ts` (the current variant,
lines 1-368, which imports `resolveTsConfig` and `resolveFileWithExtensions`
from `src/utils.ts`) together with the tsconfig `extends` resolver and the
extension/index prober of `src/utils.ts`.

Modelling conventions:
* Paths are POSIX strings.  The Node `path` functions used by the source
  (`resolve`, `relative`, `join`, `dirname`, `extname`, `isAbsolute`) are
  modelled over lists of characters with explicit `.` / `..` normalisation.
* The filesystem is a finite structure: a list of regular-file paths, a list
  of directory paths, the process working directory, and a table mapping a
  file path to the outcome of reading and parsing it (the Babel parser is an
  external collaborator; per the spec it yields a list of raw specifiers per
  file, or fails).
* `tsconfig-paths`' `createMatchPath` is an external collaborator; the
  traversal receives the resulting match function (`Option MatchPath`)
  directly, exactly as `traverseDependencies` receives `tsMatchPath`.
* Async recursion is sequentialised (the spec states a purely sequential
  implementation is a valid specialisation); the unbounded recursion of
  `traverseDependencies` and `resolveTsConfig` is embedded with explicit
  fuel, and fuel-independence is proved where the source recursion
  terminates.
* `console.warn` / `console.error` output is modelled as a log list carried
  alongside the graph.
-/

/-! ### Character-level string utilities (JS string / Node path model) -/

/-- Characters of a string. -/
def chars (s : String) : List Char :=
  s.data

/-- Boolean prefix test on character lists. -/
def prefixB : List Char → List Char → Bool
  | [], _ => true
  | _ :: _, [] => false
  | a :: as, b :: bs => (a == b) && prefixB as bs

/-- Boolean suffix test on character lists. -/
def suffixB (p l : List Char) : Bool :=
  prefixB p.reverse l.reverse

/-- JS `String.prototype.startsWith`. -/
def jsStartsWith (s pre : String) : Bool :=
  prefixB pre.data s.data

/-- JS `String.prototype.endsWith`. -/
def jsEndsWith (s suf : String) : Bool :=
  suffixB suf.data s.data

/-- Does the character list contain a path separator? -/
def sepMem : List Char → Bool
  | [] => false
  | c :: r => (c == '/') || sepMem r

/-- JS `String.prototype.includes(path.sep)` for the POSIX separator. -/
def hasSep (s : String) : Bool :=
  sepMem s.data

/-- Boolean membership in a list of strings. -/
def memb (x : String) : List String → Bool
  | [] => false
  | y :: ys => (x == y) || memb x ys

/-- Association-list lookup by string key. -/
def assocLookup {α : Type} : List (String × α) → String → Option α
  | [], _ => none
  | (k, v) :: r, key => if k == key then some v else assocLookup r key

/-- Add an element to a list unless already present (JS `Set.add`). -/
def addU (l : List String) (x : String) : List String :=
  if memb x l then l else l ++ [x]

/-- Deduplication worker: drop elements already seen. -/
def dedupAux : List String → List String → List String
  | [], _ => []
  | x :: xs, seen =>
    if memb x seen then dedupAux xs seen else x :: dedupAux xs (seen ++ [x])

/-- Deduplicate keeping the first occurrence (JS `Set` insertion order). -/
def dedupKeepFirst (l : List String) : List String :=
  dedupAux l []

/-! ### Node `path` model -/

/-- Split a character list at `/` boundaries (empty segments retained). -/
def splitSegs : List Char → List (List Char)
  | [] => [[]]
  | c :: rest =>
    if c = '/' then [] :: splitSegs rest
    else
      match splitSegs rest with
      | [] => [[c]]
      | s :: ss => (c :: s) :: ss

/-- Non-empty path segments of a string. -/
def splitPath (s : String) : List (List Char) :=
  (splitSegs s.data).filter (fun seg => !seg.isEmpty)

/-- Normalise `.` and `..` segments, left to right (Node normalisation of
absolute paths: `..` at the root is dropped). -/
def normSegs (segs : List (List Char)) : List (List Char) :=
  segs.foldl
    (fun acc seg =>
      if seg = ['.'] then acc
      else if seg = ['.', '.'] then acc.dropLast
      else acc ++ [seg])
    []

/-- Join segments with `/` (no leading separator). -/
def joinSegs : List (List Char) → List Char
  | [] => []
  | s :: rest =>
    match rest with
    | [] => s
    | _ :: _ => s ++ '/' :: joinSegs rest

/-- Is the string an absolute POSIX path (`path.isAbsolute`)? -/
def isAbsStr (s : String) : Bool :=
  jsStartsWith s "/"

/-- Segments of `s` resolved against the working directory `cwd`
(as Node `path.resolve` does for its rightmost-absolute argument). -/
def resolveSegs (cwd s : String) : List (List Char) :=
  normSegs (if isAbsStr s then splitPath s else splitPath cwd ++ splitPath s)

/-- Node `path.resolve(a, b)` under working directory `cwd`. -/
def pathResolve2 (cwd a b : String) : String :=
  let segs :=
    if isAbsStr b then normSegs (splitPath b)
    else if isAbsStr a then normSegs (splitPath a ++ splitPath b)
    else normSegs (splitPath cwd ++ splitPath a ++ splitPath b)
  String.mk ('/' :: joinSegs segs)

/-- Node `path.resolve(base, s)` where `base` is already absolute (used by
the tsconfig `extends` resolution, whose base is a config-file directory). -/
def pathResolveFrom (base s : String) : String :=
  String.mk ('/' :: joinSegs (resolveSegs base s))

/-- Segments of the relative walk from `bs` to `ps` (Node `path.relative`
after both sides are resolved). -/
def relSegs : List (List Char) → List (List Char) → List (List Char)
  | [], ps => ps
  | b :: bs, [] => (b :: bs).map (fun _ => ['.', '.'])
  | b :: bs, p :: ps =>
    if b = p then relSegs bs ps
    else ((b :: bs).map (fun _ => ['.', '.'])) ++ p :: ps

/-- Node `path.relative(base, p)` under working directory `cwd`. -/
def pathRelative (cwd base p : String) : String :=
  String.mk (joinSegs (relSegs (resolveSegs cwd base) (resolveSegs cwd p)))

/-- Node `path.join(a, b)`. -/
def pathJoin (a b : String) : String :=
  let segs := normSegs (splitPath a ++ splitPath b)
  if isAbsStr a then String.mk ('/' :: joinSegs segs)
  else String.mk (joinSegs segs)

/-- Node `path.dirname`. -/
def dirname (p : String) : String :=
  match (splitPath p).dropLast, isAbsStr p with
  | [], true => "/"
  | [], false => "."
  | ds, true => String.mk ('/' :: joinSegs ds)
  | ds, false => String.mk (joinSegs ds)

/-- Characters after the last `.` of a list, if any. -/
def afterLastDot : List Char → Option (List Char)
  | [] => none
  | c :: rest =>
    match afterLastDot rest with
    | some r => some r
    | none => if c = '.' then some rest else none

/-- Node `path.extname(p).slice(1)`: the extension of the basename without
its dot, the empty string when there is none (a dot in first position does
not count, so dotfiles have no extension). -/
def extSliceOf (p : String) : String :=
  match (splitSegs p.data).getLast? with
  | none => ""
  | some bn =>
    match bn with
    | [] => ""
    | _ :: rest =>
      match afterLastDot rest with
      | some r => String.mk r
      | none => ""

/-! ### Data model -/

/-- Kind of a raw module specifier, as distinguished by the AST handlers of
`getDirectDependencies` (`ImportDeclaration`, `ExportNamedDeclaration` /
`ExportAllDeclaration`, `require(...)`, `import(...)`). -/
inductive SpecKind where
  | staticImport
  | exportFrom
  | requireCall
  | dynamicImport
deriving DecidableEq, Repr

/-- A raw specifier extracted from a parsed file: its literal text, the
syntactic kind, and whether it is a type-only import (`importKind` of an
`ImportDeclaration`). -/
structure RawSpec where
  text : String
  kind : SpecKind
  typeOnly : Bool
deriving DecidableEq, Repr

/-- Observable outcome of `fsp.readFile` followed by Babel parsing for one
file: the ordered raw specifiers on success, or a parse failure.  A file
absent from the table cannot be read. -/
inductive FileParse where
  | specs (l : List RawSpec)
  | parseFail
deriving DecidableEq, Repr

/-- The finite filesystem world: process working directory, existing regular
files, existing directories, and the read/parse table. -/
structure FS where
  cwd : String
  files : List String
  dirs : List String
  reads : List (String × FileParse)

/-- `fsp.stat(...).isFile()`. -/
def FS.isFile (fs : FS) (p : String) : Bool :=
  memb p fs.files

/-- `fsp.stat(...).isDirectory()`. -/
def FS.isDir (fs : FS) (p : String) : Bool :=
  !fs.isFile p && memb p fs.dirs

/-- `fsp.access` succeeds. -/
def FS.existsPath (fs : FS) (p : String) : Bool :=
  memb p fs.files || memb p fs.dirs

/-- Result of `fsp.stat`. -/
inductive StatKind where
  | file
  | dir
  | missing
deriving DecidableEq, Repr

/-- `fsp.stat` classification of a path. -/
def FS.statKind (fs : FS) (p : String) : StatKind :=
  if fs.isFile p then .file else if memb p fs.dirs then .dir else .missing

/-- The options record consumed by the traversal, after default merging
(`detectiveOptions.ts.skipTypeImports` flattened to one field; `tsConfig`
is consumed upstream to build the match function and does not appear). -/
structure Options where
  includeNpm : Bool
  fileExtensions : List String
  excludeRegExp : List (String → Bool)
  skipTypeImports : Bool
  baseDir : String

/-- The `tsconfig-paths` match function (external collaborator built by
`createMatchPath`): specifier and extension list to an optional path. -/
def MatchPath : Type :=
  String → List String → Option String

/-- `fileExtensions.map(ext => '.' + ext)`. -/
def dotExts (opts : Options) : List String :=
  opts.fileExtensions.map (fun e => "." ++ e)

/-- Does any `excludeRegExp` entry match the given (relative) path? -/
def exclAny (opts : Options) (s : String) : Bool :=
  opts.excludeRegExp.any (fun rx => rx s)

/-- `path.relative(options.baseDir, p)` as used throughout the traversal. -/
def relPath (fs : FS) (opts : Options) (p : String) : String :=
  pathRelative fs.cwd opts.baseDir p

/-! ### `resolveFileWithExtensions` (src/utils.ts) -/

/-- `ext.startsWith('.') ? ext : '.' + ext`. -/
def dottedExt (e : String) : String :=
  if jsStartsWith e "." then e else "." ++ e

/-- The directory branch of `resolveFileWithExtensions`: the first
`<filePath>/index.<ext>` that `fsp.access` finds, in declared extension
order. -/
def indexProbe (fs : FS) (filePath : String) (extensions : List String) : Option String :=
  extensions.findSome? (fun e =>
    let indexCandidate := pathJoin filePath ("index" ++ dottedExt e)
    if fs.existsPath indexCandidate then some indexCandidate else none)

/-- Step 2 of `resolveFileWithExtensions`: the first `<filePath>.<ext>`
that exists as a regular file, in declared extension order. -/
def extProbe (fs : FS) (filePath : String) (extensions : List String) : Option String :=
  extensions.findSome? (fun e =>
    let candidate := filePath ++ dottedExt e
    if fs.isFile candidate then some candidate else none)

/-- Shallow embedding of `resolveFileWithExtensions` from `src/utils.ts`:
(1) if the path itself is an existing regular file, return it; if it is a
directory, return the first `index.<ext>` that `fsp.access` finds; (2)
otherwise try `<path>.<ext>` for each extension in declared order, returning
the first that exists as a regular file. -/
def resolveFileWithExtensions (fs : FS) (filePath : String) (extensions : List String) : Option String :=
  if fs.isFile filePath then some filePath
  else if fs.isDir filePath then
    match indexProbe fs filePath extensions with
    | some c => some c
    | none => extProbe fs filePath extensions
  else extProbe fs filePath extensions

/-! ### `resolveDependencyPath` (src/dependency.ts, lines 136-214) -/

/-- The alias lookup `tsMatchPath(source, undefined, undefined, exts)`,
`none` when no match function was built. -/
def aliasOf (m : Option MatchPath) (source : String) (exts : List String) : Option String :=
  match m with
  | some f => f source exts
  | none => none

/-- Steps 3-4 of `resolveDependencyPath` (lines 193-213): absolute-path
probing, then relative-path probing against the importing file's directory,
then the final `null`. -/
def resolveSteps34 (fs : FS) (source : String) (currentDir : String)
    (opts : Options) : Option String :=
  if isAbsStr source then resolveFileWithExtensions fs source opts.fileExtensions
  else if jsStartsWith source "." then
    resolveFileWithExtensions fs (pathResolve2 fs.cwd currentDir source) opts.fileExtensions
  else none

/-- Steps 2-4 of `resolveDependencyPath` (lines 168-213): TS path-alias
resolution with extension probing, the early `null` return when the alias
step does not produce a file and npm packages are not included, then the
absolute-path and relative-path steps. -/
def resolveSteps234 (fs : FS) (source : String) (currentDir : String)
    (opts : Options) (m : Option MatchPath) : Option String :=
  if m.isSome && !jsStartsWith source "." && !isAbsStr source then
    match aliasOf m source (dotExts opts) with
    | some p =>
      match resolveFileWithExtensions fs p opts.fileExtensions with
      | some rp => some rp
      | none =>
        if !opts.includeNpm then none else resolveSteps34 fs source currentDir opts
    | none =>
      if !opts.includeNpm then none else resolveSteps34 fs source currentDir opts
  else resolveSteps34 fs source currentDir opts

/-- Shallow embedding of `resolveDependencyPath`: npm passthrough /
suppression (step 1, lines 144-166), then the probing steps; `none` models
a `null` return.  The suppression check calls the match function without an
extension list, exactly as `tsMatchPath?.(source)` does at line 163. -/
def resolveDependencyPath (fs : FS) (source : String) (currentDir : String)
    (opts : Options) (m : Option MatchPath) : Option String :=
  let relStart := jsStartsWith source "."
  let absStart := isAbsStr source
  if opts.includeNpm && !relStart && !absStart then
    if !(aliasOf m source (dotExts opts)).isSome then some source
    else resolveSteps234 fs source currentDir opts m
  else if !opts.includeNpm && !relStart && !absStart && !(aliasOf m source []).isSome then
    none
  else resolveSteps234 fs source currentDir opts m

/-! ### `getDirectDependencies` (src/dependency.ts, lines 21-126) -/

/-- Shallow embedding of `getDirectDependencies`: extension gate, file read
and parse (external), specifier extraction with the type-import skip,
`Set` deduplication, per-specifier resolution, and the `excludeRegExp`
filter over `baseDir`-relative paths.  `Except.error` models a thrown
read/parse error. -/
def getDirectDependencies (fs : FS) (absoluteFilePath : String)
    (opts : Options) (m : Option MatchPath) : Except String (List String) :=
  let ext := extSliceOf absoluteFilePath
  if !memb ext opts.fileExtensions then .ok []
  else
    match assocLookup fs.reads absoluteFilePath with
    | none =>
      .error ("Failed to read file " ++ relPath fs opts absoluteFilePath)
    | some .parseFail =>
      .error ("Failed to parse file " ++ relPath fs opts absoluteFilePath)
    | some (.specs rawSpecs) =>
      let currentDir := dirname absoluteFilePath
      let sources := dedupKeepFirst (rawSpecs.filterMap (fun r =>
        if r.kind == .staticImport && opts.skipTypeImports && r.typeOnly then none
        else if r.text == "" then none
        else some r.text))
      let resolved := sources.filterMap
        (fun s => resolveDependencyPath fs s currentDir opts m)
      .ok (resolved.filter (fun r => !exclAny opts (relPath fs opts r)))

/-! ### `traverseDependencies` and `buildDependencyGraph`
(src/dependency.ts, lines 232-368) -/

/-- Mutable traversal state: the visited set, the accumulated graph,
the `allFiles` set, and the console log. -/
structure St where
  visited : List String
  graph : List (String × List String)
  allFiles : List String
  log : List String
deriving DecidableEq, Repr

/-- The npm-package test used at lines 283 and 293:
`includeNpm && !dep.includes(path.sep) && !path.isAbsolute(dep)`. -/
def isNpmEdge (opts : Options) (dep : String) : Bool :=
  opts.includeNpm && !hasSep dep && !isAbsStr dep

/-- How a resolved dependency is recorded as a graph edge: npm package
names verbatim, file paths relative to `baseDir`. -/
def edgeVal (fs : FS) (opts : Options) (dep : String) : String :=
  if isNpmEdge opts dep then dep else relPath fs opts dep

/-- Shallow embedding of `traverseDependencies`, sequentialised and with
explicit fuel for the visited-set-bounded recursion.  A file already in the
visited set returns immediately; otherwise it is marked visited and added to
`allFiles`, its direct dependencies are computed (a read or parse error is
caught: the file's graph entry becomes `[]`, the error is logged, and no
recursion happens), the graph entry is recorded, and each dependency that is
not an npm package name and not excluded is traversed in turn. -/
def trav (fs : FS) (opts : Options) (m : Option MatchPath) :
    Nat → String → St → St
  | 0, _, st => st
  | fuel + 1, cur, st =>
    if memb cur st.visited then st
    else
      let rel := relPath fs opts cur
      let st1 : St :=
        { st with visited := st.visited ++ [cur], allFiles := addU st.allFiles rel }
      match getDirectDependencies fs cur opts m with
      | .error msg =>
        { st1 with
          graph := st1.graph ++ [(rel, [])]
          log := st1.log ++ ["Error processing file " ++ rel ++ ": " ++ msg] }
      | .ok deps =>
        let st2 : St := { st1 with graph := st1.graph ++ [(rel, deps.map (edgeVal fs opts))] }
        deps.foldl
          (fun acc d =>
            if isNpmEdge opts d then { acc with allFiles := addU acc.allFiles d }
            else if exclAny opts (relPath fs opts d) then acc
            else trav fs opts m fuel d acc)
          st2
termination_by structural fuel _ _ => fuel

/-- The result of `buildDependencyGraph`, with the console output
(`console.warn` / `console.error`) modelled as a log. -/
structure BuildResult where
  graph : List (String × List String)
  files : List String
  log : List String
deriving DecidableEq, Repr

/-- Every specifier text occurring in the read/parse table. -/
def specTexts (fs : FS) : List String :=
  fs.reads.foldr
    (fun pr acc =>
      match pr.2 with
      | .specs l => l.map (fun r => r.text) ++ acc
      | .parseFail => acc)
    []

/-- A finite superset of every path the traversal can ever visit: resolved
file targets come from `fs.files` or `fs.dirs` (the prober only returns
existing entries) and npm passthrough results are specifier texts. -/
def uNodes (fs : FS) : List String :=
  fs.files ++ fs.dirs ++ specTexts fs

/-- Fuel that suffices for the traversal to run to completion. -/
def boundFuel (fs : FS) : Nat :=
  (uNodes fs).length + 1

/-- Shallow embedding of `buildDependencyGraph` with explicit traversal
fuel: entry expansion (directory enumeration with extension and exclusion
filters, or a single entry file with the extension check that throws and the
exclusion check that only warns), then sequentialised traversal of all
seeds.  `Except.error` models a thrown `Failed to process start path`
error.  The `tsconfig-paths` match function built from `options.tsConfig`
is received directly as `m` (its construction is an external collaborator,
and a failure there only logs a warning and leaves `m` empty). -/
def buildDependencyGraphF (fuel : Nat) (fs : FS) (startPath : String)
    (opts : Options) (m : Option MatchPath) : Except String BuildResult :=
  match fs.statKind startPath with
  | .dir =>
    let initialFiles := fs.files.filter (fun f =>
      jsStartsWith f (startPath ++ "/") &&
      opts.fileExtensions.any (fun e => jsEndsWith f ("." ++ e)) &&
      !exclAny opts (relPath fs opts f))
    let log0 : List String :=
      if initialFiles.isEmpty then
        ["Warning: No files matching extensions found in directory " ++ startPath]
      else []
    let stF := initialFiles.foldl
      (fun st f => trav fs opts m fuel f st)
      { visited := [], graph := [], allFiles := [], log := log0 }
    .ok { graph := stF.graph, files := stF.allFiles, log := stF.log }
  | .file =>
    if !opts.fileExtensions.any (fun e => jsEndsWith startPath ("." ++ e)) then
      .error ("Failed to process start path " ++ startPath ++
        ": Entry file does not match allowed extensions")
    else if exclAny opts (relPath fs opts startPath) then
      .ok { graph := [], files := [],
            log := ["Warning: Entry file " ++ relPath fs opts startPath ++
              " is excluded by excludeRegExp rules"] }
    else
      let stF := trav fs opts m fuel startPath
        { visited := [], graph := [], allFiles := [], log := [] }
      .ok { graph := stF.graph, files := stF.allFiles, log := stF.log }
  | .missing =>
    .error ("Failed to process start path " ++ startPath ++
      ": Invalid start path")

/-- `buildDependencyGraph` with the sufficient fuel bound. -/
def buildDependencyGraph (fs : FS) (startPath : String)
    (opts : Options) (m : Option MatchPath) : Except String BuildResult :=
  buildDependencyGraphF (boundFuel fs) fs startPath opts m

/-! ### `resolveTsConfig` (src/utils.ts) -/

/-- The merge of two optional scalar settings under JS object spread:
the child's value when present, otherwise the base's. -/
def childWins (c b : Option String) : Option String :=
  match c with
  | some u => some u
  | none => b

/-- JS object spread `{...base, ...child}` on association lists: keys of the
base in order with child overrides, then child-only keys in child order. -/
def spreadMerge {α : Type} (base child : List (String × α)) : List (String × α) :=
  base.map (fun kv => (kv.1, (assocLookup child kv.1).getD kv.2)) ++
    child.filter (fun kv => (assocLookup base kv.1).isNone)

/-- Modelled `compilerOptions` of a tsconfig document: the representative
scalar `baseUrl` and the `paths` alias map. -/
structure CompilerOptions where
  baseUrl : Option String
  paths : List (String × List String)
deriving DecidableEq, Repr

/-- A parsed tsconfig document: its `extends` reference, if any, and its
`compilerOptions`, if any. -/
structure TsDoc where
  extendsRef : Option String
  compilerOptions : Option CompilerOptions
deriving DecidableEq, Repr

/-- The store of configuration documents on disk (path to parsed content),
plus the external `require.resolve(spec, paths)` used for non-relative
`extends` references. -/
structure TsStore where
  docs : List (String × TsDoc)
  reqResolve : String → String → Option String

/-- `resolveTsConfig` errors: a missing/unreadable document, a failed
`require.resolve`, or exhausted fuel (the source recursion has no cycle
guard, so exhausted fuel models non-termination). -/
inductive TsErr where
  | readError (p : String)
  | resolveError (e : String)
  | outOfFuel
deriving DecidableEq, Repr

/-- The merge at the end of `resolveTsConfig`: JS spread of the whole
documents, `extends` deleted, and `compilerOptions` merged field-wise with
`paths` merged key-wise (`{...base.paths, ...child.paths}`). -/
def mergeTsConfig (baseConfig config : TsDoc) : TsDoc :=
  { extendsRef := none
    compilerOptions :=
      match baseConfig.compilerOptions, config.compilerOptions with
      | none, none => none
      | bco, cco =>
        let b := bco.getD { baseUrl := none, paths := [] }
        let c := cco.getD { baseUrl := none, paths := [] }
        some { baseUrl := childWins c.baseUrl b.baseUrl
               paths := spreadMerge b.paths c.paths } }

/-- Shallow embedding of `resolveTsConfig` from `src/utils.ts` with explicit
fuel: read and parse the document, resolve a relative `extends` against the
document's directory (non-relative ones through `require.resolve`),
recursively resolve the base document, and merge.  The source recursion
carries no seen-set, so a cyclic `extends` chain never reaches a base case:
exhausted fuel (`TsErr.outOfFuel`) models that divergence. -/
def resolveTsConfigF (store : TsStore) : Nat → String → Except TsErr TsDoc
  | 0, _ => .error .outOfFuel
  | fuel + 1, tsConfigPath =>
    match assocLookup store.docs tsConfigPath with
    | none => .error (.readError tsConfigPath)
    | some config =>
      match config.extendsRef with
      | none => .ok config
      | some e =>
        let basePath := dirname tsConfigPath
        let extendsPath :=
          if jsStartsWith e "." then some (pathResolveFrom basePath e)
          else store.reqResolve basePath e
        match extendsPath with
        | none => .error (.resolveError e)
        | some ep =>
          match resolveTsConfigF store fuel ep with
          | .error err => .error err
          | .ok baseConfig => .ok (mergeTsConfig baseConfig config)

/-- `resolveTsConfig` with fuel sufficient for any acyclic `extends` chain
(one step per stored document plus the initial read). -/
def resolveTsConfig (store : TsStore) (p : String) : Except TsErr TsDoc :=
  resolveTsConfigF store (store.docs.length + 1) p

deriving instance DecidableEq for Except

/-! ### Derived notions used by the verification -/

/-- The per-dependency step of the traversal fan-out (lines 290-311):
npm package names are added to `allFiles` and not recursed, excluded
relative paths are skipped, everything else is traversed. -/
def travStep (fs : FS) (opts : Options) (m : Option MatchPath) (fuel : Nat)
    (acc : St) (d : String) : St :=
  if isNpmEdge opts d then { acc with allFiles := addU acc.allFiles d }
  else if exclAny opts (relPath fs opts d) then acc
  else trav fs opts m fuel d acc

/-- Unvisited universe nodes: the traversal's termination measure. -/
def remaining (fs : FS) (visited : List String) : Nat :=
  ((uNodes fs).filter (fun x => !memb x visited)).length

/-- No graph key and no graph edge matches an exclusion filter. -/
def graphInv (opts : Options) (g : List (String × List String)) : Prop :=
  ∀ p ∈ g, exclAny opts p.1 = false ∧ ∀ e ∈ p.2, exclAny opts e = false

/-- The graph of a build outcome (empty on failure). -/
def graphOf : Except String BuildResult → List (String × List String)
  | .ok r => r.graph
  | .error _ => []

/-- The file list of a build outcome (empty on failure). -/
def filesOf : Except String BuildResult → List String
  | .ok r => r.files
  | .error _ => []

/-- Did the build fail (did `buildDependencyGraph` throw)? -/
def isErr : Except String BuildResult → Bool
  | .ok _ => false
  | .error _ => true

/-! ### Concrete worlds used by the claim theorems -/

/-- Two-file cyclic module graph: `a.ts` imports `./b`, `b.ts` imports
`./a`. -/
def fsCycle : FS :=
  { cwd := "/proj"
    files := ["/proj/a.ts", "/proj/b.ts"]
    dirs := []
    reads := [("/proj/a.ts", .specs [{ text := "./b", kind := .staticImport, typeOnly := false }]),
      ("/proj/b.ts", .specs [{ text := "./a", kind := .staticImport, typeOnly := false }])] }

/-- Baseline options: ts/js extensions, no npm, no exclusions. -/
def optsCycle : Options :=
  { includeNpm := false, fileExtensions := ["ts", "js"], excludeRegExp := [],
    skipTypeImports := false, baseDir := "/proj" }

/-- Options over `.ts` only, npm packages excluded. -/
def optsTs : Options :=
  { includeNpm := false, fileExtensions := ["ts"], excludeRegExp := [],
    skipTypeImports := false, baseDir := "/proj" }

/-- Options over `.ts` only, npm packages included. -/
def optsNpmTs : Options :=
  { includeNpm := true, fileExtensions := ["ts"], excludeRegExp := [],
    skipTypeImports := false, baseDir := "/proj" }

/-- Both `util.ts` and `util.js` exist. -/
def fsExtPrec : FS :=
  { cwd := "/proj", files := ["/proj/util.ts", "/proj/util.js"], dirs := [], reads := [] }

/-- Both the extensionless `util` and `util.ts` exist. -/
def fsPlainFile : FS :=
  { cwd := "/proj", files := ["/proj/util", "/proj/util.ts"], dirs := [], reads := [] }

/-- A `util` directory with an index file next to a `util.ts` file. -/
def fsDirIndex : FS :=
  { cwd := "/proj", files := ["/proj/util/index.ts", "/proj/util.ts"],
    dirs := ["/proj/util"], reads := [] }

/-- An entry importing the scoped package name `@scope/pkg`. -/
def fsScoped : FS :=
  { cwd := "/proj", files := ["/proj/entry.ts"], dirs := []
    reads := [("/proj/entry.ts",
      .specs [{ text := "@scope/pkg", kind := .staticImport, typeOnly := false }])] }

/-- An entry importing the separator-free package name `left-pad`. -/
def fsLeftPad : FS :=
  { cwd := "/proj", files := ["/proj/entry.ts"], dirs := []
    reads := [("/proj/entry.ts",
      .specs [{ text := "left-pad", kind := .staticImport, typeOnly := false }])] }

/-- An entry importing the alias-looking specifier `@x/foo`; the alias
target `/proj/src/foo` does not exist in any probed form. -/
def fsAliasMiss : FS :=
  { cwd := "/proj", files := ["/proj/entry.ts"], dirs := []
    reads := [("/proj/entry.ts",
      .specs [{ text := "@x/foo", kind := .staticImport, typeOnly := false }])] }

/-- A match function sending `@x/foo` to the missing `/proj/src/foo`. -/
def mAlias : MatchPath :=
  fun s _ => if s == "@x/foo" then some "/proj/src/foo" else none

/-- `a.ts` imports the excluded `./x` and the surviving sibling `./y`. -/
def fsSibling : FS :=
  { cwd := "/proj", files := ["/proj/a.ts", "/proj/x.ts", "/proj/y.ts"], dirs := []
    reads := [("/proj/a.ts",
      .specs [{ text := "./x", kind := .staticImport, typeOnly := false },
        { text := "./y", kind := .staticImport, typeOnly := false }]),
      ("/proj/x.ts", .specs []), ("/proj/y.ts", .specs [])] }

/-- Options whose exclusion filters match exactly the relative path
`x.ts`. -/
def optsExcl : Options :=
  { includeNpm := false, fileExtensions := ["ts"],
    excludeRegExp := [fun s => s == "x.ts"],
    skipTypeImports := false, baseDir := "/proj" }

/-- `a.ts` imports the unreadable `./bad` and the healthy `./c`. -/
def fsBad : FS :=
  { cwd := "/proj", files := ["/proj/a.ts", "/proj/bad.ts", "/proj/c.ts"], dirs := []
    reads := [("/proj/a.ts",
      .specs [{ text := "./bad", kind := .staticImport, typeOnly := false },
        { text := "./c", kind := .staticImport, typeOnly := false }]),
      ("/proj/c.ts", .specs [])] }

/-- A readable entry file whose extension is not an allowed one. -/
def fsEntryMd : FS :=
  { cwd := "/proj", files := ["/proj/a.md"], dirs := []
    reads := [("/proj/a.md", .specs [])] }

/-- A readable, parseable entry file. -/
def fsEntryX : FS :=
  { cwd := "/proj", files := ["/proj/a.ts"], dirs := []
    reads := [("/proj/a.ts", .specs [])] }

/-- Options whose exclusion filters match exactly the relative path
`a.ts`. -/
def optsExclEntry : Options :=
  { includeNpm := false, fileExtensions := ["ts"],
    excludeRegExp := [fun s => s == "a.ts"],
    skipTypeImports := false, baseDir := "/proj" }

/-- `a.ts` imports `./data.json`; `data.json` exists as a regular file but
has no read-table entry, so reading it would fail. -/
def fsJson : FS :=
  { cwd := "/proj", files := ["/proj/a.ts", "/proj/data.json"], dirs := []
    reads := [("/proj/a.ts",
      .specs [{ text := "./data.json", kind := .staticImport, typeOnly := false }])] }

/-- A configuration store with a child document extending a base document,
both declaring `compilerOptions` with alias maps `pc` (child) and `pb`
(base) and `baseUrl`s `buc` / `bub`. -/
def c3Store (pc pb : List (String × List String)) (buc bub : Option String) : TsStore :=
  { docs := [("/proj/tsconfig.json",
      { extendsRef := some "./base.json"
        compilerOptions := some { baseUrl := buc, paths := pc } }),
      ("/proj/base.json",
      { extendsRef := none
        compilerOptions := some { baseUrl := bub, paths := pb } })]
    reqResolve := fun _ _ => none }

/-- A configuration document whose `extends` reference resolves back to
itself. -/
def storeCyc : TsStore :=
  { docs := [("/proj/tsconfig.json",
      { extendsRef := some "./tsconfig.json", compilerOptions := none })]
    reqResolve := fun _ _ => none }

/-! ### Basic lemmas about the list utilities -/

theorem memb_iff_mem (x : String) (l : List String) : memb x l = true ↔ x ∈ l := by
  induction l with
  | nil => simp [memb]
  | cons y ys ih =>
    simp only [memb, Bool.or_eq_true, beq_iff_eq, ih, List.mem_cons]

theorem memb_append (x : String) (a b : List String) :
    memb x (a ++ b) = (memb x a || memb x b) := by
  induction a with
  | nil => simp [memb]
  | cons y ys ih => simp [memb, ih, Bool.or_assoc]

theorem assocLookup_mem {α : Type} (l : List (String × α)) (k : String) (v : α)
    (h : assocLookup l k = some v) : (k, v) ∈ l := by
  induction l with
  | nil => simp [assocLookup] at h
  | cons p r ih =>
    obtain ⟨pk, pv⟩ := p
    by_cases hk : pk == k
    · simp [assocLookup, hk] at h
      subst h
      have : pk = k := by simpa [beq_iff_eq] using hk
      subst this
      exact List.mem_cons_self _ _
    · simp [assocLookup, hk] at h
      exact List.mem_cons_of_mem _ (ih h)

theorem length_filter_mono {α : Type} (l : List α) (p q : α → Bool)
    (h : ∀ x, p x = true → q x = true) :
    (l.filter p).length ≤ (l.filter q).length := by
  induction l with
  | nil => simp
  | cons x xs ih =>
    by_cases hp : p x = true
    · simp [List.filter, hp, h x hp]
      omega
    · simp only [Bool.not_eq_true] at hp
      by_cases hq : q x = true
      · simp [List.filter, hp, hq]
        omega
      · simp only [Bool.not_eq_true] at hq
        simp [List.filter, hp, hq, ih]

theorem length_filter_strict {α : Type} (l : List α) (p q : α → Bool)
    (h : ∀ x, p x = true → q x = true)
    (x : α) (hx : x ∈ l) (hq : q x = true) (hp : p x = false) :
    (l.filter p).length < (l.filter q).length := by
  induction l with
  | nil => simp at hx
  | cons y ys ih =>
    rcases List.mem_cons.mp hx with rfl | hmem
    · simp [List.filter, hp, hq]
      exact Nat.lt_succ_of_le (length_filter_mono ys p q h)
    · by_cases hpy : p y = true
      · simp [List.filter, hpy, h y hpy]
        exact ih hmem
      · simp only [Bool.not_eq_true] at hpy
        by_cases hqy : q y = true
        · simp [List.filter, hpy, hqy]
          exact Nat.lt_succ_of_lt (ih hmem)
        · simp only [Bool.not_eq_true] at hqy
          simp [List.filter, hpy, hqy]
          exact ih hmem

/-! ### Lemmas about the path model -/

theorem splitSegs_ne_nil (l : List Char) : splitSegs l ≠ [] := by
  cases l with
  | nil => simp [splitSegs]
  | cons c rest =>
    by_cases h : c = '/'
    · simp [splitSegs, h]
    · simp only [splitSegs, if_neg h]
      cases splitSegs rest <;> simp

theorem splitSegs_no_sep (l : List Char) (h : sepMem l = false) :
    splitSegs l = [l] := by
  induction l with
  | nil => rfl
  | cons c rest ih =>
    simp only [sepMem, Bool.or_eq_false_iff, beq_eq_false_iff_ne] at h
    simp only [splitSegs, if_neg h.1, ih h.2]

theorem data_ne_nil_of_ne_empty (s : String) (h : s ≠ "") : s.data ≠ [] := by
  intro hd
  apply h
  cases s
  simp_all

theorem splitPath_no_sep (s : String) (hsep : sepMem s.data = false)
    (hne : s ≠ "") : splitPath s = [s.data] := by
  simp [splitPath, splitSegs_no_sep s.data hsep,
    List.isEmpty_iff, data_ne_nil_of_ne_empty s hne]

theorem not_abs_of_no_sep (s : String) (h : hasSep s = false) :
    isAbsStr s = false := by
  simp only [isAbsStr, jsStartsWith]
  simp only [hasSep] at h
  cases hd : s.data with
  | nil => rfl
  | cons c rest =>
    rw [hd] at h
    simp only [sepMem, Bool.or_eq_false_iff, beq_eq_false_iff_ne] at h
    show prefixB ['/'] (c :: rest) = false
    simp [prefixB, Ne.symm h.1]

theorem head_not_dot (s : String) (h : jsStartsWith s "." = false) :
    s.data ≠ ['.'] ∧ s.data ≠ ['.', '.'] := by
  simp only [jsStartsWith] at h
  constructor <;> intro hd <;> rw [hd] at h <;> simp [prefixB] at h

theorem normSegs_append_tame (xs : List (List Char)) (seg : List Char)
    (h1 : seg ≠ ['.']) (h2 : seg ≠ ['.', '.']) :
    normSegs (xs ++ [seg]) = normSegs xs ++ [seg] := by
  simp [normSegs, List.foldl_append, h1, h2]

theorem relSegs_self_append (xs : List (List Char)) (d : List Char) :
    relSegs xs (xs ++ [d]) = [d] := by
  induction xs with
  | nil => rfl
  | cons x rest ih => simp [relSegs, ih]

theorem relPath_npm (b d : String) (hb : isAbsStr b = true)
    (hsep : hasSep d = false) (hne : d ≠ "")
    (hdot : jsStartsWith d "." = false) :
    pathRelative b b d = d := by
  have habs : isAbsStr d = false := not_abs_of_no_sep d hsep
  have hsplit : splitPath d = [d.data] := splitPath_no_sep d hsep hne
  have hdots := head_not_dot d hdot
  have hres : resolveSegs b d = normSegs (splitPath b) ++ [d.data] := by
    rw [resolveSegs, habs]
    simp only [Bool.false_eq_true, if_false, hsplit]
    exact normSegs_append_tame _ _ hdots.1 hdots.2
  have hresb : resolveSegs b b = normSegs (splitPath b) := by
    rw [resolveSegs, hb]
    simp
  rw [pathRelative, hres, hresb, relSegs_self_append]
  show String.mk (joinSegs [d.data]) = d
  rfl

/-! ### Where resolved dependencies can live -/

theorem findSome?_mem {α β : Type} (l : List α) (f : α → Option β) (b : β)
    (h : l.findSome? f = some b) : ∃ a ∈ l, f a = some b := by
  induction l with
  | nil => simp [List.findSome?] at h
  | cons x xs ih =>
    rw [List.findSome?] at h
    cases hx : f x with
    | some v =>
      rw [hx] at h
      exact ⟨x, List.mem_cons_self _ _, by simp_all⟩
    | none =>
      rw [hx] at h
      obtain ⟨a, ha, hfa⟩ := ih h
      exact ⟨a, List.mem_cons_of_mem _ ha, hfa⟩

theorem dedupAux_sub (l : List String) (x : String) :
    ∀ seen, x ∈ dedupAux l seen → x ∈ l := by
  induction l with
  | nil =>
    intro seen h
    simp [dedupAux] at h
  | cons y ys ih =>
    intro seen h
    rw [dedupAux] at h
    split at h
    · exact List.mem_cons_of_mem _ (ih seen h)
    · rcases List.mem_cons.mp h with rfl | hm
      · exact List.mem_cons_self _ _
      · exact List.mem_cons_of_mem _ (ih _ hm)

theorem dedupKeepFirst_sub (l : List String) (x : String)
    (h : x ∈ dedupKeepFirst l) : x ∈ l :=
  dedupAux_sub l x [] h

theorem indexProbe_mem (fs : FS) (p : String) (exts : List String) (r : String)
    (h : indexProbe fs p exts = some r) :
    memb r fs.files = true ∨ memb r fs.dirs = true := by
  obtain ⟨e, _, he⟩ := findSome?_mem _ _ _ h
  dsimp only [] at he
  split at he
  · cases he
    rename_i hex
    simpa [FS.existsPath, Bool.or_eq_true] using hex
  · cases he

theorem extProbe_mem (fs : FS) (p : String) (exts : List String) (r : String)
    (h : extProbe fs p exts = some r) : memb r fs.files = true := by
  obtain ⟨e, _, he⟩ := findSome?_mem _ _ _ h
  dsimp only [] at he
  split at he
  · cases he
    rename_i hf
    simpa [FS.isFile] using hf
  · cases he

/-- The prober only ever returns paths that exist on the filesystem. -/
theorem resolveFileWithExtensions_mem (fs : FS) (p : String) (exts : List String)
    (r : String) (h : resolveFileWithExtensions fs p exts = some r) :
    memb r fs.files = true ∨ memb r fs.dirs = true := by
  rw [resolveFileWithExtensions] at h
  split at h
  · cases h
    left
    assumption
  · split at h
    · split at h
      · cases h
        exact indexProbe_mem _ _ _ _ (by assumption)
      · exact Or.inl (extProbe_mem _ _ _ _ h)
    · exact Or.inl (extProbe_mem _ _ _ _ h)

theorem resolveSteps34_mem (fs : FS) (source currentDir : String)
    (opts : Options) (r : String)
    (h : resolveSteps34 fs source currentDir opts = some r) :
    memb r fs.files = true ∨ memb r fs.dirs = true := by
  rw [resolveSteps34] at h
  split at h
  · exact resolveFileWithExtensions_mem _ _ _ _ h
  · split at h
    · exact resolveFileWithExtensions_mem _ _ _ _ h
    · cases h

theorem resolveSteps234_mem (fs : FS) (source currentDir : String)
    (opts : Options) (m : Option MatchPath) (r : String)
    (h : resolveSteps234 fs source currentDir opts m = some r) :
    memb r fs.files = true ∨ memb r fs.dirs = true := by
  rw [resolveSteps234] at h
  split at h
  · split at h
    · split at h
      · cases h
        exact resolveFileWithExtensions_mem _ _ _ _ (by assumption)
      · split at h
        · cases h
        · exact resolveSteps34_mem _ _ _ _ _ h
    · split at h
      · cases h
      · exact resolveSteps34_mem _ _ _ _ _ h
  · exact resolveSteps34_mem _ _ _ _ _ h

/-- Every successful resolution is either an existing filesystem entry or
the specifier returned verbatim by the npm passthrough (in which case the
specifier is neither relative nor absolute). -/
theorem resolveDependencyPath_shape (fs : FS) (source currentDir : String)
    (opts : Options) (m : Option MatchPath) (r : String)
    (h : resolveDependencyPath fs source currentDir opts m = some r) :
    (memb r fs.files = true ∨ memb r fs.dirs = true) ∨
      (r = source ∧ jsStartsWith source "." = false ∧ isAbsStr source = false) := by
  rw [resolveDependencyPath] at h
  split at h
  · rename_i hcond
    split at h
    · cases h
      right
      simp only [Bool.and_eq_true, Bool.not_eq_true'] at hcond
      exact ⟨rfl, hcond.1.2, hcond.2⟩
    · exact Or.inl (resolveSteps234_mem _ _ _ _ _ _ h)
  · split at h
    · cases h
    · exact Or.inl (resolveSteps234_mem _ _ _ _ _ _ h)

theorem mem_specTexts_list (reads : List (String × FileParse)) (p : String)
    (l : List RawSpec) (hp : (p, FileParse.specs l) ∈ reads) (r : RawSpec)
    (hr : r ∈ l) :
    r.text ∈ reads.foldr
      (fun pr acc =>
        match pr.2 with
        | .specs l2 => l2.map (fun q => q.text) ++ acc
        | .parseFail => acc)
      [] := by
  induction reads with
  | nil => simp at hp
  | cons q rest ih =>
    rcases List.mem_cons.mp hp with rfl | hmem
    · simp only [List.foldr]
      exact List.mem_append_left _ (List.mem_map_of_mem _ hr)
    · simp only [List.foldr]
      rcases q with ⟨qp, qf⟩
      cases qf with
      | specs l2 => exact List.mem_append_right _ (ih hmem)
      | parseFail => exact ih hmem

theorem mem_specTexts (fs : FS) (p : String) (l : List RawSpec)
    (hp : (p, FileParse.specs l) ∈ fs.reads) (r : RawSpec) (hr : r ∈ l) :
    r.text ∈ specTexts fs :=
  mem_specTexts_list fs.reads p l hp r hr

/-- Structure of a successfully computed direct-dependency list: every entry
survived the exclusion filter, and is either an existing filesystem entry or
a non-relative, non-absolute, non-empty specifier text of the current file
(the npm passthrough). -/
theorem getDirectDependencies_mem (fs : FS) (cur : String) (opts : Options)
    (m : Option MatchPath) (deps : List String)
    (h : getDirectDependencies fs cur opts m = .ok deps) (d : String)
    (hd : d ∈ deps) :
    exclAny opts (relPath fs opts d) = false ∧
      ((memb d fs.files = true ∨ memb d fs.dirs = true) ∨
        (jsStartsWith d "." = false ∧ isAbsStr d = false ∧ d ≠ "" ∧
          memb d (specTexts fs) = true)) := by
  rw [getDirectDependencies] at h
  split at h
  · cases h
    simp at hd
  · split at h
    · exact absurd h (by simp)
    · exact absurd h (by simp)
    · rename_i rawSpecs heq
      rw [Except.ok.injEq] at h
      subst h
      obtain ⟨hmem, hpred⟩ := List.mem_filter.mp hd
      refine ⟨by simpa using hpred, ?_⟩
      obtain ⟨s, hs, hres⟩ := List.mem_filterMap.mp hmem
      rcases resolveDependencyPath_shape _ _ _ _ _ _ hres with hfsm | ⟨rfl, hdot, habs⟩
      · exact Or.inl hfsm
      · right
        obtain ⟨rs, hrs, hpick⟩ := List.mem_filterMap.mp (dedupKeepFirst_sub _ _ hs)
        split at hpick
        · cases hpick
        · split at hpick
          · cases hpick
          · rename_i hne
            rw [Option.some.injEq] at hpick
            subst hpick
            refine ⟨hdot, habs, by simpa using hne, ?_⟩
            rw [memb_iff_mem]
            exact mem_specTexts fs cur rawSpecs (assocLookup_mem _ _ _ heq) rs hrs

/-- Every successfully computed dependency lies in the finite node
universe. -/
theorem getDirectDependencies_uNodes (fs : FS) (cur : String) (opts : Options)
    (m : Option MatchPath) (deps : List String)
    (h : getDirectDependencies fs cur opts m = .ok deps) (d : String)
    (hd : d ∈ deps) : memb d (uNodes fs) = true := by
  rcases (getDirectDependencies_mem fs cur opts m deps h d hd).2 with hfsm | hnpm
  · rw [uNodes, memb_append, memb_append]
    rcases hfsm with hf | hdir
    · simp [hf]
    · simp [hdir]
  · rw [uNodes, memb_append, memb_append]
    simp [hnpm.2.2.2]

/-! ### Traversal lemmas: monotonicity and fuel independence -/

theorem trav_zero (fs : FS) (opts : Options) (m : Option MatchPath)
    (cur : String) (st : St) : trav fs opts m 0 cur st = st :=
  rfl

theorem trav_succ (fs : FS) (opts : Options) (m : Option MatchPath)
    (fuel : Nat) (cur : String) (st : St) :
    trav fs opts m (fuel + 1) cur st =
      if memb cur st.visited then st
      else
        let rel := relPath fs opts cur
        let st1 : St :=
          { st with visited := st.visited ++ [cur], allFiles := addU st.allFiles rel }
        match getDirectDependencies fs cur opts m with
        | .error msg =>
          { st1 with
            graph := st1.graph ++ [(rel, [])]
            log := st1.log ++ ["Error processing file " ++ rel ++ ": " ++ msg] }
        | .ok deps =>
          (deps.foldl (travStep fs opts m fuel)
            { st1 with graph := st1.graph ++ [(rel, deps.map (edgeVal fs opts))] }) :=
  rfl

/-- The traversal only ever grows the visited set. -/
theorem trav_mono (fs : FS) (opts : Options) (m : Option MatchPath) :
    ∀ fuel cur st x, memb x st.visited = true →
      memb x (trav fs opts m fuel cur st).visited = true := by
  intro fuel
  induction fuel with
  | zero =>
    intro cur st x hx
    simpa [trav_zero] using hx
  | succ f ih =>
    intro cur st x hx
    rw [trav_succ]
    by_cases hv : memb cur st.visited = true
    · simpa [hv] using hx
    · simp only [Bool.not_eq_true] at hv
      simp only [hv, Bool.false_eq_true, if_false]
      have hx1 : memb x (st.visited ++ [cur]) = true := by
        rw [memb_append, hx]
        rfl
      cases hgdd : getDirectDependencies fs cur opts m with
      | error msg => simpa using hx1
      | ok deps =>
        dsimp only []
        have aux : ∀ (ds : List String) (acc : St), memb x acc.visited = true →
            memb x ((ds.foldl (travStep fs opts m f) acc).visited) = true := by
          intro ds
          induction ds with
          | nil =>
            intro acc hacc
            simpa using hacc
          | cons d rest ihds =>
            intro acc hacc
            rw [List.foldl_cons]
            apply ihds
            rw [travStep]
            split
            · simpa using hacc
            · split
              · exact hacc
              · exact ih d acc x hacc
        exact aux deps _ hx1

theorem remaining_le (fs : FS) (v v' : List String)
    (h : ∀ x, memb x v = true → memb x v' = true) :
    remaining fs v' ≤ remaining fs v := by
  apply length_filter_mono
  intro x hx
  simp only [Bool.not_eq_true'] at hx ⊢
  cases hv : memb x v with
  | false => rfl
  | true => exact absurd (h x hv) (by simp [hx])

theorem remaining_strict (fs : FS) (v : List String) (cur : String)
    (hcur : memb cur (uNodes fs) = true) (hv : memb cur v = false) :
    remaining fs (v ++ [cur]) < remaining fs v := by
  refine length_filter_strict (uNodes fs) (fun x => !memb x (v ++ [cur]))
    (fun x => !memb x v) ?_ cur ((memb_iff_mem _ _).mp hcur) ?_ ?_
  · intro x hx
    simp only [Bool.not_eq_true'] at hx ⊢
    rw [memb_append] at hx
    simp only [Bool.or_eq_false_iff] at hx
    exact hx.1
  · simp [hv]
  · simp only [Bool.not_eq_true', memb_append, hv]
    simp [memb]

/-- With enough fuel the traversal result is fuel-independent: the visited
set bounds the recursion depth, so the source recursion terminates on every
module graph, cyclic ones included. -/
theorem trav_congr (fs : FS) (opts : Options) (m : Option MatchPath) :
    ∀ n f1 f2 cur st, memb cur (uNodes fs) = true →
      remaining fs st.visited < n → n ≤ f1 → n ≤ f2 →
      trav fs opts m f1 cur st = trav fs opts m f2 cur st := by
  intro n
  induction n with
  | zero =>
    intro f1 f2 cur st _ h
    omega
  | succ n ih =>
    intro f1 f2 cur st hcur hrem h1 h2
    obtain ⟨f1', rfl⟩ : ∃ k, f1 = k + 1 := ⟨f1 - 1, by omega⟩
    obtain ⟨f2', rfl⟩ : ∃ k, f2 = k + 1 := ⟨f2 - 1, by omega⟩
    rw [trav_succ, trav_succ]
    by_cases hv : memb cur st.visited = true
    · simp [hv]
    · simp only [Bool.not_eq_true] at hv
      simp only [hv, Bool.false_eq_true, if_false]
      cases hgdd : getDirectDependencies fs cur opts m with
      | error msg => rfl
      | ok deps =>
        dsimp only []
        have hdeps : ∀ d ∈ deps, memb d (uNodes fs) = true :=
          fun d hd => getDirectDependencies_uNodes fs cur opts m deps hgdd d hd
        have hrem2 : remaining fs (st.visited ++ [cur]) < n := by
          have := remaining_strict fs st.visited cur hcur hv
          omega
        have aux : ∀ (ds : List String) (acc : St),
            (∀ d ∈ ds, memb d (uNodes fs) = true) →
            remaining fs acc.visited < n →
            ds.foldl (travStep fs opts m f1') acc =
              ds.foldl (travStep fs opts m f2') acc := by
          intro ds
          induction ds with
          | nil =>
            intro acc _ _
            rfl
          | cons d rest ihds =>
            intro acc hds hacc
            rw [List.foldl_cons, List.foldl_cons]
            have hstep : travStep fs opts m f1' acc d = travStep fs opts m f2' acc d := by
              rw [travStep, travStep]
              split
              · rfl
              · split
                · rfl
                · exact ih f1' f2' d acc (hds d (List.mem_cons_self _ _)) hacc
                    (by omega) (by omega)
            rw [hstep]
            apply ihds
            · exact fun d2 hd2 => hds d2 (List.mem_cons_of_mem _ hd2)
            calc remaining fs (travStep fs opts m f2' acc d).visited
                ≤ remaining fs acc.visited := by
                  apply remaining_le
                  intro x hx
                  rw [travStep]
                  split
                  · simpa using hx
                  · split
                    · exact hx
                    · exact trav_mono fs opts m f2' d acc x hx
              _ < n := hacc
        exact aux deps _ hdeps hrem2

theorem statKind_file_mem (fs : FS) (p : String) (h : fs.statKind p = .file) :
    memb p fs.files = true := by
  rw [FS.statKind] at h
  split at h
  · rename_i hf
    simpa [FS.isFile] using hf
  · split at h <;> cases h

theorem seedsFold_congr (fs : FS) (opts : Options) (m : Option MatchPath)
    (n f1 f2 : Nat) (h1 : n ≤ f1) (h2 : n ≤ f2) :
    ∀ (seeds : List String) (st : St),
      (∀ f ∈ seeds, memb f (uNodes fs) = true) →
      remaining fs st.visited < n →
      seeds.foldl (fun acc f => trav fs opts m f1 f acc) st =
        seeds.foldl (fun acc f => trav fs opts m f2 f acc) st := by
  intro seeds
  induction seeds with
  | nil =>
    intro st _ _
    rfl
  | cons s rest ih =>
    intro st hseeds hrem
    rw [List.foldl_cons, List.foldl_cons]
    rw [trav_congr fs opts m n f1 f2 s st (hseeds s (List.mem_cons_self _ _)) hrem h1 h2]
    apply ih _ (fun f hf => hseeds f (List.mem_cons_of_mem _ hf))
    calc remaining fs (trav fs opts m f2 s st).visited
        ≤ remaining fs st.visited :=
          remaining_le fs _ _ (fun x hx => trav_mono fs opts m f2 s st x hx)
      _ < n := hrem

/-- Extra fuel beyond the bound never changes the result of the build: the
traversal runs to completion within the bound on every input, cyclic module
graphs included. -/
theorem buildF_fuel_congr (fs : FS) (entry : String) (opts : Options)
    (m : Option MatchPath) (extra : Nat) :
    buildDependencyGraphF (boundFuel fs + extra) fs entry opts m =
      buildDependencyGraphF (boundFuel fs) fs entry opts m := by
  have hn : remaining fs ([] : List String) < boundFuel fs := by
    rw [remaining, boundFuel]
    exact Nat.lt_succ_of_le (List.length_filter_le _ _)
  rw [buildDependencyGraphF, buildDependencyGraphF]
  cases hstat : fs.statKind entry with
  | dir =>
    dsimp only []
    rw [seedsFold_congr fs opts m (boundFuel fs) (boundFuel fs + extra) (boundFuel fs)
      (by omega) (by omega)]
    · intro f hf
      have hmemf : memb f fs.files = true := by
        rw [memb_iff_mem]
        exact List.mem_of_mem_filter hf
      rw [uNodes, memb_append, memb_append, hmemf]
      rfl
    · exact hn
  | file =>
    dsimp only []
    split
    · rfl
    · split
      · rfl
      · rw [trav_congr fs opts m (boundFuel fs) (boundFuel fs + extra) (boundFuel fs)
          entry _ ?_ hn (by omega) (by omega)]
        have hmemf := statKind_file_mem fs entry hstat
        rw [uNodes, memb_append, memb_append, hmemf]
        rfl
  | missing => rfl

/-! ### The exclusion invariant of the graph -/

theorem graphInv_append_entry (opts : Options) (g : List (String × List String))
    (k : String) (es : List String) (hg : graphInv opts g)
    (hk : exclAny opts k = false) (hes : ∀ e ∈ es, exclAny opts e = false) :
    graphInv opts (g ++ [(k, es)]) := by
  intro p hp
  rcases List.mem_append.mp hp with hold | hnew
  · exact hg p hold
  · rcases List.mem_singleton.mp hnew with rfl
    exact ⟨hk, hes⟩

/-- Under a well-formed world (absolute `baseDir` equal to the working
directory, absolute filesystem paths), every recorded edge value of a
surviving dependency is clear of the exclusion filters: file edges are
recorded by the very relative path the filter inspected, and npm edges are
their own relative path. -/
theorem edgeVal_excl (fs : FS) (opts : Options) (m : Option MatchPath)
    (cur : String) (deps : List String)
    (habs : isAbsStr opts.baseDir = true) (hcwd : fs.cwd = opts.baseDir)
    (hfiles : ∀ p, memb p fs.files = true → isAbsStr p = true)
    (hdirs : ∀ p, memb p fs.dirs = true → isAbsStr p = true)
    (hgdd : getDirectDependencies fs cur opts m = .ok deps)
    (d : String) (hd : d ∈ deps) :
    exclAny opts (edgeVal fs opts d) = false := by
  obtain ⟨hexcl, hshape⟩ := getDirectDependencies_mem fs cur opts m deps hgdd d hd
  rw [edgeVal]
  by_cases hnpm : isNpmEdge opts d = true
  · simp only [hnpm, if_true]
    rw [isNpmEdge] at hnpm
    simp only [Bool.and_eq_true, Bool.not_eq_true'] at hnpm
    rcases hshape with hfsm | ⟨hdot, habsd, hne, _⟩
    · rcases hfsm with hf | hdir
      · rw [hfiles d hf] at hnpm
        simp at hnpm
      · rw [hdirs d hdir] at hnpm
        simp at hnpm
    · have : relPath fs opts d = d := by
        rw [relPath, hcwd]
        exact relPath_npm opts.baseDir d habs hnpm.1.2 hne hdot
      rw [← this]
      exact hexcl
  · simp only [Bool.not_eq_true] at hnpm
    simp only [hnpm, Bool.false_eq_true, if_false]
    exact hexcl

/-- The traversal preserves the exclusion invariant, provided the file it
is entered on has already passed the exclusion check (the source checks
every seed and every recursed dependency before calling
`traverseDependencies`). -/
theorem trav_graphInv (fs : FS) (opts : Options) (m : Option MatchPath)
    (habs : isAbsStr opts.baseDir = true) (hcwd : fs.cwd = opts.baseDir)
    (hfiles : ∀ p, memb p fs.files = true → isAbsStr p = true)
    (hdirs : ∀ p, memb p fs.dirs = true → isAbsStr p = true) :
    ∀ fuel cur st, graphInv opts st.graph →
      exclAny opts (relPath fs opts cur) = false →
      graphInv opts (trav fs opts m fuel cur st).graph := by
  intro fuel
  induction fuel with
  | zero =>
    intro cur st hst _
    simpa [trav_zero] using hst
  | succ f ih =>
    intro cur st hst hcur
    rw [trav_succ]
    by_cases hv : memb cur st.visited = true
    · simpa [hv] using hst
    · simp only [Bool.not_eq_true] at hv
      simp only [hv, Bool.false_eq_true, if_false]
      cases hgdd : getDirectDependencies fs cur opts m with
      | error msg =>
        exact graphInv_append_entry opts st.graph _ [] hst hcur (by simp)
      | ok deps =>
        dsimp only []
        have hst2 : graphInv opts
            (st.graph ++ [(relPath fs opts cur, deps.map (edgeVal fs opts))]) := by
          apply graphInv_append_entry opts st.graph _ _ hst hcur
          intro e he
          obtain ⟨d, hd, rfl⟩ := List.mem_map.mp he
          exact edgeVal_excl fs opts m cur deps habs hcwd hfiles hdirs hgdd d hd
        have aux : ∀ (ds : List String) (acc : St), graphInv opts acc.graph →
            graphInv opts ((ds.foldl (travStep fs opts m f) acc).graph) := by
          intro ds
          induction ds with
          | nil =>
            intro acc hacc
            simpa using hacc
          | cons d rest ihds =>
            intro acc hacc
            rw [List.foldl_cons]
            apply ihds
            rw [travStep]
            split
            · simpa using hacc
            · split
              · exact hacc
              · rename_i hex
                simp only [Bool.not_eq_true] at hex
                exact ih d acc hacc hex
        exact aux deps _ hst2

/-- The exclusion invariant of the whole build: every graph key and every
graph edge is clear of the exclusion filters. -/
theorem build_graphInv (fs : FS) (entry : String) (opts : Options)
    (m : Option MatchPath) (res : BuildResult)
    (habs : isAbsStr opts.baseDir = true) (hcwd : fs.cwd = opts.baseDir)
    (hfiles : ∀ p, memb p fs.files = true → isAbsStr p = true)
    (hdirs : ∀ p, memb p fs.dirs = true → isAbsStr p = true)
    (h : buildDependencyGraph fs entry opts m = .ok res) :
    graphInv opts res.graph := by
  rw [buildDependencyGraph, buildDependencyGraphF] at h
  split at h
  · rw [Except.ok.injEq] at h
    subst h
    dsimp only []
    have aux : ∀ (seeds : List String) (st : St), graphInv opts st.graph →
        (∀ f ∈ seeds, exclAny opts (relPath fs opts f) = false) →
        graphInv opts
          ((seeds.foldl (fun acc f => trav fs opts m (boundFuel fs) f acc) st).graph) := by
      intro seeds
      induction seeds with
      | nil =>
        intro st hst _
        simpa using hst
      | cons s rest ihs =>
        intro st hst hseeds
        rw [List.foldl_cons]
        apply ihs _ _ (fun f hf => hseeds f (List.mem_cons_of_mem _ hf))
        exact trav_graphInv fs opts m habs hcwd hfiles hdirs (boundFuel fs) s st hst
          (hseeds s (List.mem_cons_self _ _))
    apply aux
    · intro p hp
      simp at hp
    · intro f hf
      have := List.mem_filter.mp hf
      simp only [Bool.and_eq_true, Bool.not_eq_true'] at this
      exact this.2.2
  · split at h
    · cases h
    · split at h
      · rw [Except.ok.injEq] at h
        subst h
        intro p hp
        simp at hp
      · rename_i hex
        rw [Except.ok.injEq] at h
        subst h
        dsimp only []
        simp only [Bool.not_eq_true] at hex
        apply trav_graphInv fs opts m habs hcwd hfiles hdirs (boundFuel fs) entry _ _ hex
        intro p hp
        simp at hp
  · cases h

/-! ### Lookup structure of the tsconfig merge -/

theorem assocLookup_append {α : Type} (l1 l2 : List (String × α)) (k : String) :
    assocLookup (l1 ++ l2) k =
      match assocLookup l1 k with
      | some v => some v
      | none => assocLookup l2 k := by
  induction l1 with
  | nil => simp [assocLookup]
  | cons p rest ih =>
    obtain ⟨pk, pv⟩ := p
    by_cases hk : pk == k
    · simp [assocLookup, hk]
    · simp only [List.cons_append, assocLookup, hk, Bool.false_eq_true, if_false]
      exact ih

theorem assocLookup_mapVal {α β : Type} (b : List (String × α)) (g : String → α → β)
    (k : String) :
    assocLookup (b.map (fun kv => (kv.1, g kv.1 kv.2))) k =
      Option.map (g k) (assocLookup b k) := by
  induction b with
  | nil => simp [assocLookup]
  | cons p rest ih =>
    obtain ⟨pk, pv⟩ := p
    by_cases hk : pk == k
    · have : pk = k := by simpa [beq_iff_eq] using hk
      subst this
      simp [assocLookup, hk]
    · simp only [List.map_cons, assocLookup, hk, Bool.false_eq_true, if_false]
      exact ih

theorem assocLookup_filter_keys {α : Type} (c : List (String × α)) (p : String → Bool)
    (k : String) :
    assocLookup (c.filter (fun kv => p kv.1)) k =
      if p k then assocLookup c k else none := by
  induction c with
  | nil => simp [assocLookup]
  | cons q rest ih =>
    obtain ⟨qk, qv⟩ := q
    by_cases hq : p qk = true
    · rw [List.filter_cons_of_pos (by simpa using hq)]
      by_cases hk : qk == k
      · have : qk = k := by simpa [beq_iff_eq] using hk
        subst this
        simp [assocLookup, hq]
      · simp only [assocLookup, hk, Bool.false_eq_true, if_false]
        exact ih
    · rw [List.filter_cons_of_neg (by simpa using hq)]
      by_cases hk : qk == k
      · have : qk = k := by simpa [beq_iff_eq] using hk
        subst this
        simp only [Bool.not_eq_true] at hq
        simp only [assocLookup, hk, if_true, hq, Bool.false_eq_true, if_false]
        rw [ih, hq]
        simp
      · simp only [assocLookup, hk, Bool.false_eq_true, if_false]
        exact ih

/-- Key lookup in the JS-spread merge of two alias maps: the child wins on
shared keys and base-only keys are preserved. -/
theorem assocLookup_spreadMerge {α : Type} (b c : List (String × α)) (k : String) :
    assocLookup (spreadMerge b c) k =
      match assocLookup c k with
      | some v => some v
      | none => assocLookup b k := by
  rw [spreadMerge, assocLookup_append,
    assocLookup_mapVal b (fun key v => (assocLookup c key).getD v) k,
    assocLookup_filter_keys c (fun key => (assocLookup b key).isNone) k]
  cases hb : assocLookup b k with
  | some v =>
    simp only [Option.map_some, Option.isNone_some, Bool.false_eq_true, if_false]
    cases hc : assocLookup c k <;> simp
  | none =>
    simp only [Option.map_none, Option.isNone_none, if_true]
    cases hc : assocLookup c k <;> simp

/-! ### The claims -/

/-- Claim C1: on a cyclic module graph (a imports b, b imports a) the
traversal terminates — on every world the result is unchanged by any amount
of extra fuel beyond the visited-set bound, so the source recursion
completes — and each file of the cycle appears exactly once as a graph key,
with exactly one edge to the other file; the cycle edge is recorded once
and never re-expanded. -/
theorem claim_C1_cycle_termination :
    (∀ (fs : FS) (entry : String) (opts : Options) (m : Option MatchPath) (extra : Nat),
      buildDependencyGraphF (boundFuel fs + extra) fs entry opts m =
        buildDependencyGraph fs entry opts m) ∧
    buildDependencyGraph fsCycle "/proj/a.ts" optsCycle none =
      .ok { graph := [("a.ts", ["b.ts"]), ("b.ts", ["a.ts"])],
            files := ["a.ts", "b.ts"], log := [] } ∧
    ((graphOf (buildDependencyGraph fsCycle "/proj/a.ts" optsCycle none)).map
      Prod.fst).count "a.ts" = 1 ∧
    ((graphOf (buildDependencyGraph fsCycle "/proj/a.ts" optsCycle none)).map
      Prod.fst).count "b.ts" = 1 :=
  ⟨fun fs entry opts m extra => buildF_fuel_congr fs entry opts m extra,
   by decide, by decide, by decide⟩

/-- Claim C2: the file prober follows the precedence (a) an existing
regular file is returned unmodified, (b) for a directory the
`index.<ext>` candidates are tried in declared extension order (falling
back to the appended-extension candidates), (c) otherwise `<base>.<ext>`
candidates are tried in declared order, (d) else none; concretely, with
extensions `ts, js` and both `util.ts` and `util.js` present, `./util`
probes to the `.ts` file, an existing extensionless file beats an appended
extension, and a directory with an index beats the appended extension. -/
theorem claim_C2_probe_precedence :
    (∀ (fs : FS) (base : String) (exts : List String),
      (fs.isFile base = true → resolveFileWithExtensions fs base exts = some base) ∧
      (fs.isFile base = false → fs.isDir base = true →
        resolveFileWithExtensions fs base exts =
          match indexProbe fs base exts with
          | some c => some c
          | none => extProbe fs base exts) ∧
      (fs.isFile base = false → fs.isDir base = false →
        resolveFileWithExtensions fs base exts = extProbe fs base exts)) ∧
    resolveFileWithExtensions fsExtPrec "/proj/util" ["ts", "js"] = some "/proj/util.ts" ∧
    resolveFileWithExtensions fsPlainFile "/proj/util" ["ts"] = some "/proj/util" ∧
    resolveFileWithExtensions fsDirIndex "/proj/util" ["ts"] = some "/proj/util/index.ts" := by
  refine ⟨fun fs base exts => ⟨?_, ?_, ?_⟩, by decide, by decide, by decide⟩
  · intro hf
    simp [resolveFileWithExtensions, hf]
  · intro hf hd
    simp [resolveFileWithExtensions, hf, hd]
  · intro hf hd
    simp [resolveFileWithExtensions, hf, hd]

/-- Witness for C2 at a concrete world: both hypotheses of the
file-branch discharged on the extensionless `util` file. -/
theorem claim_C2_witness :
    resolveFileWithExtensions fsPlainFile "/proj/util" ["ts"] = some "/proj/util" :=
  (claim_C2_probe_precedence.1 fsPlainFile "/proj/util" ["ts"]).1 (by decide)

/-- Claim C3: resolving a child document that extends a base merges
`compilerOptions` with the child winning on scalars (`baseUrl`) and the
alias-pattern map merged key-wise — a pattern declared in both keeps the
child's candidate list, and base-only patterns are preserved. -/
theorem claim_C3_extends_merge :
    (∀ (pc pb : List (String × List String)) (buc bub : Option String),
      resolveTsConfig (c3Store pc pb buc bub) "/proj/tsconfig.json" =
        .ok { extendsRef := none
              compilerOptions := some { baseUrl := childWins buc bub
                                        paths := spreadMerge pb pc } }) ∧
    (∀ (pc pb : List (String × List String)) (k : String) (cs : List String),
      assocLookup pc k = some cs → assocLookup (spreadMerge pb pc) k = some cs) ∧
    (∀ (pc pb : List (String × List String)) (k : String) (bs : List String),
      assocLookup pc k = none → assocLookup pb k = some bs →
      assocLookup (spreadMerge pb pc) k = some bs) ∧
    (∀ (buc bub : Option String) (u : String), buc = some u →
      childWins buc bub = some u) := by
  refine ⟨fun pc pb buc bub => rfl, ?_, ?_, ?_⟩
  · intro pc pb k cs h
    rw [assocLookup_spreadMerge, h]
  · intro pc pb k bs hc hb
    rw [assocLookup_spreadMerge, hc, hb]
  · intro buc bub u h
    subst h
    rfl

/-- Witness for C3: the shared pattern keeps the child's candidates, the
base-only pattern survives, and the child's `baseUrl` wins. -/
theorem claim_C3_witness :
    assocLookup (spreadMerge [("@x/*", ["src/*"]), ("@y/*", ["y/*"])]
      [("@x/*", ["src2/*"])]) "@x/*" = some ["src2/*"] ∧
    assocLookup (spreadMerge [("@x/*", ["src/*"]), ("@y/*", ["y/*"])]
      [("@x/*", ["src2/*"])]) "@y/*" = some ["y/*"] ∧
    childWins (some "./app") (some "./base") = some "./app" :=
  ⟨claim_C3_extends_merge.2.1 [("@x/*", ["src2/*"])]
      [("@x/*", ["src/*"]), ("@y/*", ["y/*"])] "@x/*" ["src2/*"] (by decide),
   claim_C3_extends_merge.2.2.1 [("@x/*", ["src2/*"])]
      [("@x/*", ["src/*"]), ("@y/*", ["y/*"])] "@y/*" ["y/*"] (by decide) (by decide),
   claim_C3_extends_merge.2.2.2 (some "./app") (some "./base") "./app" rfl⟩

/-- Counterexample to C4 as stated: the scoped package name `@scope/pkg`
does not start with `.` or `/`, matches no alias, and `includeNpm` is true,
so resolution returns it verbatim — but because it contains a path
separator the traversal does not treat it as a package edge: it is visited
and becomes a graph key (with an empty dependency list), contradicting
"never becomes a key of the graph and is never itself visited". -/
theorem claim_C4_counterexample :
    optsNpmTs.includeNpm = true ∧
    jsStartsWith "@scope/pkg" "." = false ∧
    isAbsStr "@scope/pkg" = false ∧
    resolveDependencyPath fsScoped "@scope/pkg" "/proj" optsNpmTs none = some "@scope/pkg" ∧
    buildDependencyGraph fsScoped "/proj/entry.ts" optsNpmTs none =
      .ok { graph := [("entry.ts", ["@scope/pkg"]), ("@scope/pkg", [])],
            files := ["entry.ts", "@scope/pkg"], log := [] } ∧
    assocLookup (graphOf (buildDependencyGraph fsScoped "/proj/entry.ts" optsNpmTs none))
      "@scope/pkg" = some [] :=
  ⟨rfl, by decide, by decide, by decide, by decide, by decide⟩

/-- Claim C4 (amended to package names without a path separator): a
non-relative, non-absolute specifier that matches no alias pattern is, with
`includeNpm` true, returned verbatim with no dependence on the filesystem;
for a separator-free name such as `left-pad` it appears as an edge of the
importing file and in the file list, but never becomes a graph key and is
never visited. -/
theorem claim_C4_amended_package_passthrough :
    (∀ (fs : FS) (source currentDir : String) (opts : Options) (m : Option MatchPath),
      opts.includeNpm = true → jsStartsWith source "." = false →
      isAbsStr source = false → aliasOf m source (dotExts opts) = none →
      resolveDependencyPath fs source currentDir opts m = some source) ∧
    buildDependencyGraph fsLeftPad "/proj/entry.ts" optsNpmTs none =
      .ok { graph := [("entry.ts", ["left-pad"])],
            files := ["entry.ts", "left-pad"], log := [] } ∧
    assocLookup (graphOf (buildDependencyGraph fsLeftPad "/proj/entry.ts" optsNpmTs none))
      "left-pad" = none ∧
    memb "left-pad"
      (filesOf (buildDependencyGraph fsLeftPad "/proj/entry.ts" optsNpmTs none)) = true := by
  refine ⟨?_, by decide, by decide, by decide⟩
  intro fs source currentDir opts m hnpm hdot habs halias
  rw [resolveDependencyPath]
  simp [hnpm, hdot, habs, halias]

/-- Witness for C4: the passthrough evaluated at `left-pad`. -/
theorem claim_C4_witness :
    resolveDependencyPath fsLeftPad "left-pad" "/proj" optsNpmTs none = some "left-pad" :=
  claim_C4_amended_package_passthrough.1 fsLeftPad "left-pad" "/proj" optsNpmTs none
    rfl (by decide) (by decide) rfl

/-- Claim C5: a specifier that matches an alias pattern whose rewritten
candidate fails to probe resolves to `null` when `includeNpm` is false —
it is never reinterpreted as a package name, and no edge for it appears in
the graph. -/
theorem claim_C5_alias_probe_failure :
    (∀ (fs : FS) (source currentDir : String) (opts : Options) (f : MatchPath)
        (p : String),
      opts.includeNpm = false → jsStartsWith source "." = false →
      isAbsStr source = false → f source (dotExts opts) = some p →
      resolveFileWithExtensions fs p opts.fileExtensions = none →
      resolveDependencyPath fs source currentDir opts (some f) = none) ∧
    mAlias "@x/foo" (dotExts optsTs) = some "/proj/src/foo" ∧
    resolveFileWithExtensions fsAliasMiss "/proj/src/foo" optsTs.fileExtensions = none ∧
    buildDependencyGraph fsAliasMiss "/proj/entry.ts" optsTs (some mAlias) =
      .ok { graph := [("entry.ts", [])], files := ["entry.ts"], log := [] } := by
  refine ⟨?_, by decide, by decide, by decide⟩
  intro fs source currentDir opts f p hn hdot habs hmatch hprobe
  rw [resolveDependencyPath]
  by_cases h0 : (f source []).isSome = true
  · simp only [hn, hdot, habs, aliasOf, h0, Bool.not_true, Bool.false_and, Bool.and_false,
      Bool.false_eq_true, if_false, Bool.not_false, Bool.and_true, Bool.and_self]
    rw [resolveSteps234]
    simp [aliasOf, hdot, habs, hmatch, hprobe, hn]
  · simp only [Bool.not_eq_true] at h0
    simp [hn, hdot, habs, aliasOf, h0]

/-- Witness for C5: the failed alias probe for `@x/foo` resolves to
nothing. -/
theorem claim_C5_witness :
    resolveDependencyPath fsAliasMiss "@x/foo" "/proj" optsTs (some mAlias) = none :=
  claim_C5_alias_probe_failure.1 fsAliasMiss "@x/foo" "/proj" optsTs mAlias
    "/proj/src/foo" rfl (by decide) (by decide) (by decide) (by decide)

/-- Claim C6: under a well-formed world (absolute `baseDir`, the working
directory at `baseDir`, absolute filesystem paths) no excluded relative
path ever appears as a graph key or as a graph edge, and excluding one
target does not remove sibling edges: concretely, with `x.ts` excluded,
`a.ts` keeps its `y.ts` edge, loses only the `x.ts` edge, and `x.ts` is
not a key. -/
theorem claim_C6_exclusion_law :
    (∀ (fs : FS) (entry : String) (opts : Options) (m : Option MatchPath)
        (res : BuildResult),
      isAbsStr opts.baseDir = true → fs.cwd = opts.baseDir →
      (∀ p, memb p fs.files = true → isAbsStr p = true) →
      (∀ p, memb p fs.dirs = true → isAbsStr p = true) →
      buildDependencyGraph fs entry opts m = .ok res →
      ∀ pr ∈ res.graph,
        exclAny opts pr.1 = false ∧ ∀ e ∈ pr.2, exclAny opts e = false) ∧
    buildDependencyGraph fsSibling "/proj/a.ts" optsExcl none =
      .ok { graph := [("a.ts", ["y.ts"]), ("y.ts", [])],
            files := ["a.ts", "y.ts"], log := [] } ∧
    exclAny optsExcl "x.ts" = true ∧
    assocLookup (graphOf (buildDependencyGraph fsSibling "/proj/a.ts" optsExcl none))
      "x.ts" = none :=
  ⟨fun fs entry opts m res habs hcwd hfiles hdirs h =>
    build_graphInv fs entry opts m res habs hcwd hfiles hdirs h,
   by decide, by decide, by decide⟩

/-- Witness for C6: the invariant applied to the sibling world shows the
key `a.ts` and its sole edge `y.ts` are clear of the filters. -/
theorem claim_C6_witness :
    exclAny optsExcl "a.ts" = false ∧ exclAny optsExcl "y.ts" = false := by
  have h := claim_C6_exclusion_law.1 fsSibling "/proj/a.ts" optsExcl none
    { graph := [("a.ts", ["y.ts"]), ("y.ts", [])], files := ["a.ts", "y.ts"], log := [] }
    (by decide) rfl
    (fun p hp => by
      rw [memb_iff_mem] at hp
      fin_cases hp <;> decide)
    (fun p hp => by simp [memb] at hp)
    (by decide) ("a.ts", ["y.ts"]) (by decide)
  exact ⟨h.1, h.2 "y.ts" (by decide)⟩

/-- Counterexample to C7's final clause: the whole call also fails when the
entry is a readable regular file whose extension is not allowed — not only
when the entry is neither a readable file nor a directory. -/
theorem claim_C7_counterexample :
    memb "/proj/a.md" fsEntryMd.files = true ∧
    fsEntryMd.statKind "/proj/a.md" = .file ∧
    isErr (buildDependencyGraph fsEntryMd "/proj/a.md" optsTs none) = true :=
  ⟨by decide, by decide, by decide⟩

/-- Claim C7 (amended): a read or parse failure on a discovered file is
contained — that file's graph entry becomes the empty list, its
dependencies are not expanded, the error is only logged, and the traversal
returns so siblings continue; the whole call fails exactly when the entry
path is missing, or is a file whose extension is not allowed.  Concretely
the unreadable `bad.ts` gets an empty entry while its sibling `c.ts` is
still traversed. -/
theorem claim_C7_amended_error_containment :
    (∀ (fs : FS) (cur : String) (opts : Options) (m : Option MatchPath) (st : St)
        (fuel : Nat) (msg : String),
      memb cur st.visited = false →
      getDirectDependencies fs cur opts m = .error msg →
      trav fs opts m (fuel + 1) cur st =
        { visited := st.visited ++ [cur]
          graph := st.graph ++ [(relPath fs opts cur, [])]
          allFiles := addU st.allFiles (relPath fs opts cur)
          log := st.log ++
            ["Error processing file " ++ relPath fs opts cur ++ ": " ++ msg] }) ∧
    (∀ (fs : FS) (entry : String) (opts : Options) (m : Option MatchPath),
      isErr (buildDependencyGraph fs entry opts m) =
        (match fs.statKind entry with
         | .missing => true
         | .file => !opts.fileExtensions.any (fun e => jsEndsWith entry ("." ++ e))
         | .dir => false)) ∧
    buildDependencyGraph fsBad "/proj/a.ts" optsTs none =
      .ok { graph := [("a.ts", ["bad.ts", "c.ts"]), ("bad.ts", []), ("c.ts", [])],
            files := ["a.ts", "bad.ts", "c.ts"],
            log := ["Error processing file bad.ts: Failed to read file bad.ts"] } := by
  refine ⟨?_, ?_, by decide⟩
  · intro fs cur opts m st fuel msg hv hgdd
    rw [trav_succ, hv, hgdd]
    rfl
  · intro fs entry opts m
    rw [buildDependencyGraph, buildDependencyGraphF]
    cases hstat : fs.statKind entry with
    | dir => simp only [hstat, isErr]
    | file =>
      simp only [hstat]
      cases hany : opts.fileExtensions.any (fun e => jsEndsWith entry ("." ++ e)) with
      | false => simp only [hany, Bool.not_false, if_true, isErr]
      | true =>
        simp only [hany, Bool.not_true, Bool.false_eq_true, if_false]
        split <;> rfl
    | missing => simp only [hstat, isErr]

/-- Witness for C7: the containment step evaluated on the unreadable
`bad.ts`. -/
theorem claim_C7_witness :
    trav fsBad optsTs none 1 "/proj/bad.ts"
      { visited := [], graph := [], allFiles := [], log := [] } =
      { visited := ["/proj/bad.ts"], graph := [("bad.ts", [])],
        allFiles := ["bad.ts"],
        log := ["Error processing file bad.ts: Failed to read file bad.ts"] } :=
  claim_C7_amended_error_containment.1 fsBad "/proj/bad.ts" optsTs none
    { visited := [], graph := [], allFiles := [], log := [] } 0
    "Failed to read file bad.ts" (by decide) (by decide)

/-- Claim C8 is the intended behaviour; the code diverges: `resolveTsConfig`
carries no seen-set, so on a document whose `extends` chain is cyclic the
recursion never reaches a base case — for every amount of fuel the
computation is still unfinished. -/
theorem claim_C8_extends_cycle_diverges :
    ∀ fuel : Nat,
      resolveTsConfigF storeCyc fuel "/proj/tsconfig.json" = .error .outOfFuel := by
  intro fuel
  induction fuel with
  | zero => rfl
  | succ f ih =>
    have hstep : resolveTsConfigF storeCyc (f + 1) "/proj/tsconfig.json" =
        match resolveTsConfigF storeCyc f "/proj/tsconfig.json" with
        | .error err => .error err
        | .ok baseConfig =>
          .ok (mergeTsConfig baseConfig
            { extendsRef := some "./tsconfig.json", compilerOptions := none }) := rfl
    rw [hstep, ih]

/-- Counterexample to C9 as stated: an entry file whose relative path
matches an exclusion filter does not produce an error for the caller — the
call succeeds with an empty graph, and only a console warning records the
exclusion. -/
theorem claim_C9_counterexample :
    fsEntryX.statKind "/proj/a.ts" = .file ∧
    exclAny optsExclEntry (relPath fsEntryX optsExclEntry "/proj/a.ts") = true ∧
    isErr (buildDependencyGraph fsEntryX "/proj/a.ts" optsExclEntry none) = false ∧
    buildDependencyGraph fsEntryX "/proj/a.ts" optsExclEntry none =
      .ok { graph := [], files := [],
            log := ["Warning: Entry file a.ts is excluded by excludeRegExp rules"] } :=
  ⟨by decide, by decide, by decide, by decide⟩

/-- Claim C9 (amended): a single-file entry whose extension is not allowed
makes the whole call fail; an allowed entry whose relative path matches an
exclusion filter is not used as a traversal seed — the call succeeds with
an empty graph and the exclusion is recorded as a warning. -/
theorem claim_C9_amended_entry_checks :
    (∀ (fs : FS) (entry : String) (opts : Options) (m : Option MatchPath),
      fs.statKind entry = .file →
      opts.fileExtensions.any (fun e => jsEndsWith entry ("." ++ e)) = false →
      isErr (buildDependencyGraph fs entry opts m) = true) ∧
    (∀ (fs : FS) (entry : String) (opts : Options) (m : Option MatchPath),
      fs.statKind entry = .file →
      opts.fileExtensions.any (fun e => jsEndsWith entry ("." ++ e)) = true →
      exclAny opts (relPath fs opts entry) = true →
      buildDependencyGraph fs entry opts m =
        .ok { graph := [], files := []
              log := ["Warning: Entry file " ++ relPath fs opts entry ++
                " is excluded by excludeRegExp rules"] }) := by
  constructor
  · intro fs entry opts m hstat hany
    rw [buildDependencyGraph, buildDependencyGraphF]
    simp only [hstat, hany, Bool.not_false, if_true, isErr]
  · intro fs entry opts m hstat hany hexcl
    rw [buildDependencyGraph, buildDependencyGraphF]
    simp only [hstat, hany, Bool.not_true, Bool.false_eq_true, if_false, hexcl, if_true]

/-- Witness for C9: both entry checks evaluated at concrete worlds. -/
theorem claim_C9_witness :
    isErr (buildDependencyGraph fsEntryMd "/proj/a.md" optsTs none) = true ∧
    buildDependencyGraph fsEntryX "/proj/a.ts" optsExclEntry none =
      .ok { graph := [], files := [],
            log := ["Warning: Entry file a.ts is excluded by excludeRegExp rules"] } :=
  ⟨claim_C9_amended_entry_checks.1 fsEntryMd "/proj/a.md" optsTs none
    (by decide) (by decide),
   claim_C9_amended_entry_checks.2 fsEntryX "/proj/a.ts" optsExclEntry none
    (by decide) (by decide) (by decide)⟩

/-- Claim C10: a file whose extension is not configured yields an empty
direct-dependency list for every world — in particular its content is
never consulted, so even a file that could not be read causes no error.
Concretely, `data.json` resolves through probe branch (a) as an existing
regular file, is visited, becomes a graph key with an empty dependency
list, and its absence from the read table is harmless. -/
theorem claim_C10_foreign_extension_leaf :
    (∀ (fs : FS) (p : String) (opts : Options) (m : Option MatchPath),
      memb (extSliceOf p) opts.fileExtensions = false →
      getDirectDependencies fs p opts m = .ok []) ∧
    resolveFileWithExtensions fsJson "/proj/data.json" optsTs.fileExtensions =
      some "/proj/data.json" ∧
    fsJson.isFile "/proj/data.json" = true ∧
    assocLookup fsJson.reads "/proj/data.json" = none ∧
    buildDependencyGraph fsJson "/proj/a.ts" optsTs none =
      .ok { graph := [("a.ts", ["data.json"]), ("data.json", [])],
            files := ["a.ts", "data.json"], log := [] } := by
  refine ⟨?_, by decide, by decide, by decide, by decide⟩
  intro fs p opts m h
  rw [getDirectDependencies]
  simp only [h, Bool.not_false, if_true]

/-- Witness for C10: the wrong-extension gate evaluated on `data.json`,
whose read would fail. -/
theorem claim_C10_witness :
    getDirectDependencies fsJson "/proj/data.json" optsTs none = .ok [] :=
  claim_C10_foreign_extension_leaf.1 fsJson "/proj/data.json" optsTs none (by decide)
